import Mathlib

/-!
Verification of the race-weekend temporal model of the f1.stvr.cz web
application: the date-range reduction `getEventDateRange`, the
classification `getRaceStatus`, the countdown decomposition
`calculateTimeLeft`, the single-session live check `isCurrentEvent`, the
results-fetch gate in `RaceDetails`, and the schedule filters of the
Index page.

Modelling conventions for the JavaScript/TypeScript source:
* Instants are whole seconds since the epoch, as `Int`.
* An ISO date-time string is modelled abstractly by `IsoStr`: it either
  parses to an instant (`IsoStr.ok t`) or is malformed (`IsoStr.bad`);
  the application only ever builds strings of the shape
  `YYYY-MM-DDTHH:MM:SSZ` out of an API date part and an API time part.
* A JavaScript value appearing in the date computations is a `JSVal`:
  `null`, `undefined`, a valid `Date` carrying an instant, or the
  JavaScript "Invalid Date" (a `Date` whose time value is NaN).
* `new Date()` calls inside the source functions become an explicit
  `now : Int` parameter.
* date-fns `isWithinInterval` follows the v3/v4 semantics: the two
  bounds are sorted and the check is inclusive; any invalid operand
  makes every NaN comparison false, hence the result false.
-/

/-- A JavaScript value flowing through the date-range computations:
`jsNull` is `null`, `undef` is `undefined`, `date t` is a valid `Date`
holding the instant `t` (whole seconds), `invalid` is "Invalid Date". -/
inductive JSVal
  | jsNull
  | undef
  | date (t : Int)
  | invalid
deriving DecidableEq, Repr

/-- JavaScript truthiness of a `JSVal`: `null` and `undefined` are
falsy; every `Date` object, including an invalid one, is truthy. -/
def truthy : JSVal → Bool
  | JSVal.jsNull => false
  | JSVal.undef => false
  | JSVal.date _ => true
  | JSVal.invalid => true

/-- The JavaScript `<` relational operator restricted to the values the
source compares: it is numeric comparison of time values when both sides
are valid `Date`s, and `false` whenever either side is `undefined` or an
invalid `Date` (NaN comparisons are always false). -/
def jsLt : JSVal → JSVal → Bool
  | JSVal.date a, JSVal.date b => a < b
  | _, _ => false

/-- The JavaScript `>` relational operator, same conventions as `jsLt`. -/
def jsGt : JSVal → JSVal → Bool
  | JSVal.date a, JSVal.date b => b < a
  | _, _ => false

/-- date-fns `isValid`: true exactly for a valid `Date`; `undefined`
and "Invalid Date" are not valid. -/
def isValidDate : JSVal → Bool
  | JSVal.date _ => true
  | _ => false

/-- An ISO-8601 date or time string as the application builds them:
either it contributes the instant/offset `t` (whole seconds) when
parsed, or it is malformed. -/
inductive IsoStr
  | ok (t : Int)
  | bad
deriving DecidableEq, Repr

/-- Model of date-fns `parseISO` applied to the concatenation
`` `${dateStr}T${timeStr}` `` that the source always builds: the result
is a valid `Date` at the sum of the date part's midnight instant and the
time part's offset when both parts are well formed, and "Invalid Date"
when either part is malformed. -/
def parseISO (dateStr timeStr : IsoStr) : JSVal :=
  match dateStr, timeStr with
  | IsoStr.ok d, IsoStr.ok t => JSVal.date (d + t)
  | _, _ => JSVal.invalid

/-- The literal default time string `'00:00:00Z'` (midnight UTC). -/
def midnightZ : IsoStr := IsoStr.ok 0

/-- A session record of a race weekend: a date string and an optional
time-of-day string (absent models a missing/falsy `time` field). -/
structure Session where
  date : IsoStr
  time : Option IsoStr
deriving DecidableEq, Repr

/-- The shape of a `Race` record consumed by the temporal core: the main
race date and optional time, plus the optional session sub-records.
Presentational fields (name, circuit, round, ...) are omitted: the
date computations never read them. -/
structure Race where
  date : IsoStr
  time : Option IsoStr
  FirstPractice : Option Session
  SecondPractice : Option Session
  ThirdPractice : Option Session
  Qualifying : Option Session
  SprintQualifying : Option Session
  Sprint : Option Session
deriving DecidableEq, Repr

/-- `parseISO(`${s.date}T${s.time || '00:00:00Z'}`)` for a session. -/
def sessionInstant (s : Session) : JSVal :=
  parseISO s.date (s.time.getD midnightZ)

/-- `race.X && parseISO(...)`: an absent session short-circuits to
`undefined`, a present one is parsed. -/
def optSessionInstant : Option Session → JSVal
  | none => JSVal.undef
  | some s => sessionInstant s

/-- `arr.reduce((min, date) => date < min ? date : min)`: left fold
seeded with the first element. The source only calls it on a non-empty
array; the `[]` case returns `undefined` as unreachable junk. -/
def jsReduceMin (l : List JSVal) : JSVal :=
  match l with
  | [] => JSVal.undef
  | h :: t => t.foldl (fun m d => if jsLt d m then d else m) h

/-- `arr.reduce((max, date) => date > max ? date : max)`. -/
def jsReduceMax (l : List JSVal) : JSVal :=
  match l with
  | [] => JSVal.undef
  | h :: t => t.foldl (fun m d => if jsGt d m then d else m) h

/-- The return value of `getEventDateRange`. -/
structure DateRange where
  startDate : JSVal
  endDate : JSVal
deriving DecidableEq, Repr

/-- The array literal of candidate instants built by `getEventDateRange`
in `RaceCard` (both variants) and `RaceDetails`: first/second/third
practice, sprint qualifying, sprint, qualifying, then the main race. -/
def rangeEntries (r : Race) : List JSVal :=
  [ optSessionInstant r.FirstPractice
  , optSessionInstant r.SecondPractice
  , optSessionInstant r.ThirdPractice
  , optSessionInstant r.SprintQualifying
  , optSessionInstant r.Sprint
  , optSessionInstant r.Qualifying
  , sessionInstant { date := r.date, time := r.time } ]

/-- `getEventDateRange` as implemented identically in `RaceCard`
(part_000 and part_001) and `RaceDetails`: the candidate array is
filtered by `date !== null && isValid(date)`, and on a non-empty result
the min and max reductions are returned, else `null`/`null`. -/
def getEventDateRange (r : Race) : DateRange :=
  let dates := (rangeEntries r).filter
    (fun d => !(d == JSVal.jsNull) && isValidDate d)
  if dates.length = 0 then { startDate := JSVal.jsNull, endDate := JSVal.jsNull }
  else { startDate := jsReduceMin dates, endDate := jsReduceMax dates }

/-- The candidate array of the `Index` page's private copy of
`getEventDateRange`: no sprint-qualifying entry, and the order is
practices, qualifying, sprint, race. -/
def indexRangeEntries (r : Race) : List JSVal :=
  [ optSessionInstant r.FirstPractice
  , optSessionInstant r.SecondPractice
  , optSessionInstant r.ThirdPractice
  , optSessionInstant r.Qualifying
  , optSessionInstant r.Sprint
  , sessionInstant { date := r.date, time := r.time } ]

/-- The `Index` page's copy of `getEventDateRange`: the filter is only
`date !== null`, with no `isValid` check, so `undefined` entries (absent
sessions) and invalid `Date`s survive into the reductions. -/
def indexGetEventDateRange (r : Race) : DateRange :=
  let dates := (indexRangeEntries r).filter (fun d => !(d == JSVal.jsNull))
  if dates.length = 0 then { startDate := JSVal.jsNull, endDate := JSVal.jsNull }
  else { startDate := jsReduceMin dates, endDate := jsReduceMax dates }

/-- date-fns `isWithinInterval(now, { start, end })`, v3/v4 semantics:
the two bounds are sorted, the containment check is inclusive at both
ends, and any invalid bound yields `false`. -/
def isWithinInterval (t : Int) (start stop : JSVal) : Bool :=
  match start, stop with
  | JSVal.date s, JSVal.date e => min s e ≤ t && t ≤ max s e
  | _, _ => false

/-- The three race classifications. -/
inductive RaceStatus
  | past
  | current
  | upcoming
deriving DecidableEq, Repr

/-- The status record returned by the `getRaceStatus` variants; the
purely presentational `className`/`icon` payload is omitted. -/
structure StatusResult where
  status : RaceStatus
  label : String
deriving DecidableEq, Repr

/-- `getRaceStatus` of `RaceCard` part_000: a falsy start or end date
yields "to be announced" upcoming; otherwise a true `isPast` hint wins
unconditionally; otherwise interval containment decides current;
otherwise upcoming. The `new Date()` read becomes `now`. -/
def getRaceStatus (startDate endDate : JSVal) (isPast : Bool) (now : Int) :
    StatusResult :=
  if !truthy startDate || !truthy endDate then
    { status := RaceStatus.upcoming, label := "Bude oznámeno" }
  else if isPast then
    { status := RaceStatus.past, label := "Dokončeno" }
  else if isWithinInterval now startDate endDate then
    { status := RaceStatus.current, label := "Teď" }
  else
    { status := RaceStatus.upcoming, label := "Nadcházející" }

/-- `getRaceStatus` of `RaceCard` part_001: identical control flow to
the part_000 variant, with its own label for the current state. -/
def card2GetRaceStatus (startDate endDate : JSVal) (isPast : Bool) (now : Int) :
    StatusResult :=
  if !truthy startDate || !truthy endDate then
    { status := RaceStatus.upcoming, label := "Bude oznámeno" }
  else if isPast then
    { status := RaceStatus.past, label := "Dokončeno" }
  else if isWithinInterval now startDate endDate then
    { status := RaceStatus.current, label := "Probíhá" }
  else
    { status := RaceStatus.upcoming, label := "Nadcházející" }

/-- `getRaceStatus` of `RaceDetails`: no external hint parameter; a past
race is detected by `endDate < now`, then interval containment decides
current, else upcoming. -/
def detailsGetRaceStatus (startDate endDate : JSVal) (now : Int) :
    StatusResult :=
  if !truthy startDate || !truthy endDate then
    { status := RaceStatus.upcoming, label := "Bude oznámeno" }
  else if jsLt endDate (JSVal.date now) then
    { status := RaceStatus.past, label := "Dokončeno" }
  else if isWithinInterval now startDate endDate then
    { status := RaceStatus.current, label := "Právě probíhá" }
  else
    { status := RaceStatus.upcoming, label := "Nadcházející" }

/-- `isRacePast` of the `Index` page: false on a falsy end date, else
`endDate < now`. -/
def isRacePast (r : Race) (now : Int) : Bool :=
  let endDate := (indexGetEventDateRange r).endDate
  if !truthy endDate then false
  else jsLt endDate (JSVal.date now)

/-- `isRaceCurrent` of the `Index` page: false on a falsy start or end
date, else `isWithinInterval(now, { start, end })`. -/
def isRaceCurrent (r : Race) (now : Int) : Bool :=
  let range := indexGetEventDateRange r
  if !truthy range.startDate || !truthy range.endDate then false
  else isWithinInterval now range.startDate range.endDate

/-- `schedule.filter(isRacePast)`. -/
def pastRaces (schedule : List Race) (now : Int) : List Race :=
  schedule.filter (fun r => isRacePast r now)

/-- `schedule.filter(isRaceCurrent)`. -/
def currentRaces (schedule : List Race) (now : Int) : List Race :=
  schedule.filter (fun r => isRaceCurrent r now)

/-- `schedule.filter(race => !isRacePast(race) && !isRaceCurrent(race))`. -/
def upcomingRaces (schedule : List Race) (now : Int) : List Race :=
  schedule.filter (fun r => !isRacePast r now && !isRaceCurrent r now)

/-- Whether the `getRaceResults` effect in `RaceDetails` issues the
results-fetch request: the effect runs only when the dialog is open with
a race, returns early on a missing race or a falsy window end, and
fetches exactly when `endDate < today`. -/
def shouldFetchResults (race : Option Race) (isOpen : Bool) (now : Int) :
    Bool :=
  match race with
  | none => false
  | some r =>
    isOpen &&
      (let endDate := (getEventDateRange r).endDate
       if !truthy endDate then false
       else jsLt endDate (JSVal.date now))

/-- `isCurrentEvent` of `EventItem` in `RaceDetails`: false when the
date or the time string is missing, false when the combined string does
not parse, else containment of `now` in the closed interval from the
session start to two hours (7200 s) later. The source computes the end
by `setHours(getHours() + 2)`, which is exactly a 7200-second shift at a
fixed UTC offset. -/
def isCurrentEvent (date : Option IsoStr) (time : Option IsoStr) (now : Int) :
    Bool :=
  match date, time with
  | some d, some t =>
    match parseISO d t with
    | JSVal.date ev => isWithinInterval now (JSVal.date ev) (JSVal.date (ev + 7200))
    | _ => false
  | _, _ => false

/-- The countdown state of `HeroCountdown`. -/
structure TimeLeft where
  days : Int
  hours : Int
  minutes : Int
  seconds : Int
deriving DecidableEq, Repr

/-- `calculateTimeLeft` of `HeroCountdown`: the value passed to
`setTimeLeft`. `diff` is date-fns `differenceInSeconds(raceDate, now)`,
exact on whole-second instants; when `diff <= 0` the all-zero record is
stored, otherwise the floor decomposition into days, hours, minutes and
seconds. -/
def calculateTimeLeft (target now : Int) : TimeLeft :=
  let diff := target - now
  if diff ≤ 0 then { days := 0, hours := 0, minutes := 0, seconds := 0 }
  else
    { days := diff / (60 * 60 * 24)
    , hours := (diff % (60 * 60 * 24)) / (60 * 60)
    , minutes := (diff % (60 * 60)) / 60
    , seconds := diff % 60 }

/-- The countdown operation exactly as the specification words it
(`computeRemaining`): `none` when the target is not strictly in the
future, otherwise the floor decomposition. Stated for comparison with
`calculateTimeLeft`, which is translated from the source. -/
def computeRemainingSpec (target now : Int) : Option TimeLeft :=
  if target ≤ now then none
  else
    some
      { days := (target - now) / (60 * 60 * 24)
      , hours := ((target - now) % (60 * 60 * 24)) / (60 * 60)
      , minutes := ((target - now) % (60 * 60)) / 60
      , seconds := (target - now) % 60 }

/-- The instant carried by a valid `Date`, `none` otherwise. -/
def toValidInstant : JSVal → Option Int
  | JSVal.date t => some t
  | _ => none

/-- The validly parsed instants of the `RaceCard`/`RaceDetails`
candidate array, in array order. -/
def validInstants (r : Race) : List Int :=
  (rangeEntries r).filterMap toValidInstant

/-- The validly parsed instants of the `Index` page's candidate array. -/
def indexValidInstants (r : Race) : List Int :=
  (indexRangeEntries r).filterMap toValidInstant

/-- Seeded minimum of a list of instants, mirroring the reduce shape. -/
def reduceMinInt (l : List Int) : Int :=
  match l with
  | [] => 0
  | h :: t => t.foldl (fun m d => if d < m then d else m) h

/-- Seeded maximum of a list of instants, mirroring the reduce shape. -/
def reduceMaxInt (l : List Int) : Int :=
  match l with
  | [] => 0
  | h :: t => t.foldl (fun m d => if m < d then d else m) h

/-! ### Helper lemmas about the seeded reductions -/

theorem foldl_min_mem (t : List Int) (h : Int) :
    t.foldl (fun m d => if d < m then d else m) h = h ∨
      t.foldl (fun m d => if d < m then d else m) h ∈ t := by
  induction t generalizing h with
  | nil => exact Or.inl rfl
  | cons a t ih =>
    simp only [List.foldl_cons]
    by_cases hah : a < h
    · simp only [if_pos hah]
      rcases ih a with h1 | h1
      · right
        rw [h1]
        exact List.mem_cons_self a t
      · exact Or.inr (List.mem_cons_of_mem _ h1)
    · simp only [if_neg hah]
      rcases ih h with h1 | h1
      · exact Or.inl h1
      · exact Or.inr (List.mem_cons_of_mem _ h1)

theorem foldl_min_le (t : List Int) (h : Int) :
    t.foldl (fun m d => if d < m then d else m) h ≤ h ∧
      ∀ y ∈ t, t.foldl (fun m d => if d < m then d else m) h ≤ y := by
  induction t generalizing h with
  | nil => exact ⟨le_refl h, by simp⟩
  | cons a t ih =>
    simp only [List.foldl_cons]
    by_cases hah : a < h
    · simp only [if_pos hah]
      obtain ⟨ih1, ih2⟩ := ih a
      refine ⟨le_of_lt (lt_of_le_of_lt ih1 hah), ?_⟩
      intro y hy
      rcases List.mem_cons.mp hy with rfl | hy
      · exact ih1
      · exact ih2 y hy
    · simp only [if_neg hah]
      obtain ⟨ih1, ih2⟩ := ih h
      refine ⟨ih1, ?_⟩
      intro y hy
      rcases List.mem_cons.mp hy with rfl | hy
      · exact le_trans ih1 (not_lt.mp hah)
      · exact ih2 y hy

theorem foldl_max_mem (t : List Int) (h : Int) :
    t.foldl (fun m d => if m < d then d else m) h = h ∨
      t.foldl (fun m d => if m < d then d else m) h ∈ t := by
  induction t generalizing h with
  | nil => exact Or.inl rfl
  | cons a t ih =>
    simp only [List.foldl_cons]
    by_cases hah : h < a
    · simp only [if_pos hah]
      rcases ih a with h1 | h1
      · right
        rw [h1]
        exact List.mem_cons_self a t
      · exact Or.inr (List.mem_cons_of_mem _ h1)
    · simp only [if_neg hah]
      rcases ih h with h1 | h1
      · exact Or.inl h1
      · exact Or.inr (List.mem_cons_of_mem _ h1)

theorem foldl_max_ge (t : List Int) (h : Int) :
    h ≤ t.foldl (fun m d => if m < d then d else m) h ∧
      ∀ y ∈ t, y ≤ t.foldl (fun m d => if m < d then d else m) h := by
  induction t generalizing h with
  | nil => exact ⟨le_refl h, by simp⟩
  | cons a t ih =>
    simp only [List.foldl_cons]
    by_cases hah : h < a
    · simp only [if_pos hah]
      obtain ⟨ih1, ih2⟩ := ih a
      refine ⟨le_of_lt (lt_of_lt_of_le hah ih1), ?_⟩
      intro y hy
      rcases List.mem_cons.mp hy with rfl | hy
      · exact ih1
      · exact ih2 y hy
    · simp only [if_neg hah]
      obtain ⟨ih1, ih2⟩ := ih h
      refine ⟨ih1, ?_⟩
      intro y hy
      rcases List.mem_cons.mp hy with rfl | hy
      · exact le_trans (not_lt.mp hah) ih1
      · exact ih2 y hy

theorem filter_valid_eq_map (l : List JSVal) :
    l.filter (fun d => !(d == JSVal.jsNull) && isValidDate d) =
      (l.filterMap toValidInstant).map JSVal.date := by
  induction l with
  | nil => rfl
  | cons a l ih =>
    cases a <;>
      simpa [List.filter_cons, List.filterMap_cons, isValidDate,
        toValidInstant] using ih

theorem jsStepMin_date (v a : Int) :
    (if jsLt (JSVal.date a) (JSVal.date v) then JSVal.date a else JSVal.date v)
      = JSVal.date (if a < v then a else v) := by
  by_cases hav : a < v <;> simp [jsLt, hav]

theorem jsStepMax_date (v a : Int) :
    (if jsGt (JSVal.date a) (JSVal.date v) then JSVal.date a else JSVal.date v)
      = JSVal.date (if v < a then a else v) := by
  by_cases hav : v < a <;> simp [jsGt, hav]

theorem jsReduceMin_map (v : Int) (vs : List Int) :
    (vs.map JSVal.date).foldl (fun m d => if jsLt d m then d else m)
        (JSVal.date v) =
      JSVal.date (vs.foldl (fun m d => if d < m then d else m) v) := by
  induction vs generalizing v with
  | nil => rfl
  | cons a vs ih =>
    simp only [List.map_cons, List.foldl_cons, jsStepMin_date]
    exact ih (if a < v then a else v)

theorem jsReduceMax_map (v : Int) (vs : List Int) :
    (vs.map JSVal.date).foldl (fun m d => if jsGt d m then d else m)
        (JSVal.date v) =
      JSVal.date (vs.foldl (fun m d => if m < d then d else m) v) := by
  induction vs generalizing v with
  | nil => rfl
  | cons a vs ih =>
    simp only [List.map_cons, List.foldl_cons, jsStepMax_date]
    exact ih (if v < a then a else v)

theorem validInstants_map (r : Race) :
    (rangeEntries r).filter (fun d => !(d == JSVal.jsNull) && isValidDate d) =
      (validInstants r).map JSVal.date :=
  filter_valid_eq_map (rangeEntries r)

theorem getEventDateRange_eq (r : Race) (v : Int) (vs : List Int)
    (hvals : validInstants r = v :: vs) :
    getEventDateRange r =
      { startDate := JSVal.date (vs.foldl (fun m d => if d < m then d else m) v)
      , endDate := JSVal.date (vs.foldl (fun m d => if m < d then d else m) v) } := by
  have hfil : (rangeEntries r).filter
      (fun d => !(d == JSVal.jsNull) && isValidDate d) =
      JSVal.date v :: vs.map JSVal.date := by
    rw [validInstants_map, hvals, List.map_cons]
  simp only [getEventDateRange, hfil]
  rw [if_neg (by simp)]
  simp only [jsReduceMin, jsReduceMax]
  rw [jsReduceMin_map, jsReduceMax_map]

/-! ### Claim theorems -/

/-- C1: for every race whose sessions yield a non-empty list of validly
parsed instants, `getEventDateRange` returns a window of two valid dates
with `startDate ≤ endDate`, and both are elements of the input list of
instants — indeed its minimum and its maximum. -/
theorem getEventDateRange_window (r : Race) (hne : validInstants r ≠ []) :
    ∃ s e : Int,
      (getEventDateRange r).startDate = JSVal.date s ∧
      (getEventDateRange r).endDate = JSVal.date e ∧
      s ≤ e ∧ s ∈ validInstants r ∧ e ∈ validInstants r ∧
      ∀ t ∈ validInstants r, s ≤ t ∧ t ≤ e := by
  rcases hvals : validInstants r with _ | ⟨v, vs⟩
  · exact absurd hvals hne
  refine ⟨vs.foldl (fun m d => if d < m then d else m) v,
    vs.foldl (fun m d => if m < d then d else m) v, ?_, ?_, ?_, ?_, ?_, ?_⟩
  · rw [getEventDateRange_eq r v vs hvals]
  · rw [getEventDateRange_eq r v vs hvals]
  · exact le_trans (foldl_min_le vs v).1 (foldl_max_ge vs v).1
  · rcases foldl_min_mem vs v with h1 | h1
    · rw [h1]
      exact List.mem_cons_self v vs
    · exact List.mem_cons_of_mem _ h1
  · rcases foldl_max_mem vs v with h1 | h1
    · rw [h1]
      exact List.mem_cons_self v vs
    · exact List.mem_cons_of_mem _ h1
  · intro t ht
    rcases List.mem_cons.mp ht with rfl | ht
    · exact ⟨(foldl_min_le vs t).1, (foldl_max_ge vs t).1⟩
    · exact ⟨(foldl_min_le vs v).2 t ht, (foldl_max_ge vs v).2 t ht⟩

/-- A concrete race used as a witness: a qualifying session at instant
100 and the main race at instant 200, both parsing successfully. -/
def wRace : Race :=
  { date := IsoStr.ok 200
  , time := none
  , FirstPractice := none
  , SecondPractice := none
  , ThirdPractice := none
  , Qualifying := some { date := IsoStr.ok 100, time := some (IsoStr.ok 0) }
  , SprintQualifying := none
  , Sprint := none }

/-- Witness for C1 at the concrete race `wRace`. -/
theorem getEventDateRange_window_witness :
    validInstants wRace ≠ [] ∧
      ∃ s e : Int,
        (getEventDateRange wRace).startDate = JSVal.date s ∧
        (getEventDateRange wRace).endDate = JSVal.date e ∧
        s ≤ e ∧ s ∈ validInstants wRace ∧ e ∈ validInstants wRace ∧
        ∀ t ∈ validInstants wRace, s ≤ t ∧ t ≤ e :=
  ⟨by decide, getEventDateRange_window wRace (by decide)⟩

/-- C2: `getRaceStatus` (the hint-bearing classify of `RaceCard`) returns
the live ("current") status iff the window consists of two valid dates,
the external past hint is false, and `now` lies in the closed interval
from start to end — inclusive at both endpoints; outside that interval,
with the hint false, it returns upcoming. The hint-free `RaceDetails`
variant likewise returns live iff `now` lies within the closed window.
The hypothesis `hwf` records the window invariant start ≤ end. -/
theorem getRaceStatus_current_iff (startDate endDate : JSVal) (isPast : Bool)
    (now : Int)
    (hwf : ∀ s e : Int, startDate = JSVal.date s → endDate = JSVal.date e → s ≤ e) :
    ((getRaceStatus startDate endDate isPast now).status = RaceStatus.current ↔
      ∃ s e : Int, startDate = JSVal.date s ∧ endDate = JSVal.date e ∧
        isPast = false ∧ s ≤ now ∧ now ≤ e) ∧
    ((detailsGetRaceStatus startDate endDate now).status = RaceStatus.current ↔
      ∃ s e : Int, startDate = JSVal.date s ∧ endDate = JSVal.date e ∧
        s ≤ now ∧ now ≤ e) ∧
    (isPast = false →
      ∀ s e : Int, startDate = JSVal.date s → endDate = JSVal.date e →
        ¬(s ≤ now ∧ now ≤ e) →
        (getRaceStatus startDate endDate isPast now).status = RaceStatus.upcoming) := by
  cases startDate <;> cases endDate <;>
    simp only [getRaceStatus, detailsGetRaceStatus, truthy, isWithinInterval, jsLt] <;>
    simp <;>
    first
    | (rename_i s e
       have hse := hwf s e rfl rfl
       cases isPast <;> simp <;> split_ifs <;> simp_all <;> omega)
    | (cases isPast <;> simp <;> split_ifs <;> simp_all)

/-- Witness for C2: window [0, 10], hint false, now = 5 (live), and the
same window evaluated by the conclusion's iffs. -/
theorem getRaceStatus_current_iff_witness :
    (∀ s e : Int, JSVal.date 0 = JSVal.date s → JSVal.date 10 = JSVal.date e → s ≤ e) ∧
    (((getRaceStatus (JSVal.date 0) (JSVal.date 10) false 5).status = RaceStatus.current ↔
      ∃ s e : Int, JSVal.date 0 = JSVal.date s ∧ JSVal.date 10 = JSVal.date e ∧
        false = false ∧ s ≤ 5 ∧ (5:Int) ≤ e) ∧
    ((detailsGetRaceStatus (JSVal.date 0) (JSVal.date 10) 5).status = RaceStatus.current ↔
      ∃ s e : Int, JSVal.date 0 = JSVal.date s ∧ JSVal.date 10 = JSVal.date e ∧
        s ≤ 5 ∧ (5:Int) ≤ e) ∧
    (false = false →
      ∀ s e : Int, JSVal.date 0 = JSVal.date s → JSVal.date 10 = JSVal.date e →
        ¬(s ≤ 5 ∧ (5:Int) ≤ e) →
        (getRaceStatus (JSVal.date 0) (JSVal.date 10) false 5).status = RaceStatus.upcoming)) :=
  ⟨fun s e hs he => by
      simp only [JSVal.date.injEq] at hs he
      omega,
   getRaceStatus_current_iff (JSVal.date 0) (JSVal.date 10) false 5
     (fun s e hs he => by
        simp only [JSVal.date.injEq] at hs he
        omega)⟩

/-- C3: with a defined (truthy) window, a true external past hint makes
both `RaceCard` classify variants return past, for every `now` — in
particular also when `now` precedes the window start, since `now` is
never compared against the window on this path. -/
theorem getRaceStatus_past_hint (startDate endDate : JSVal) (now : Int)
    (hs : truthy startDate = true) (he : truthy endDate = true) :
    (getRaceStatus startDate endDate true now).status = RaceStatus.past ∧
    (card2GetRaceStatus startDate endDate true now).status = RaceStatus.past := by
  cases startDate <;> cases endDate <;>
    simp_all [getRaceStatus, card2GetRaceStatus, truthy]

/-- Witness for C3: window [100, 200] with now = 0 strictly before the
window start, hint true, classified past by both variants. -/
theorem getRaceStatus_past_hint_witness :
    truthy (JSVal.date 100) = true ∧ truthy (JSVal.date 200) = true ∧
    (0:Int) < 100 ∧
    (getRaceStatus (JSVal.date 100) (JSVal.date 200) true 0).status = RaceStatus.past ∧
    (card2GetRaceStatus (JSVal.date 100) (JSVal.date 200) true 0).status = RaceStatus.past :=
  ⟨rfl, rfl, by decide,
    (getRaceStatus_past_hint (JSVal.date 100) (JSVal.date 200) 0 rfl rfl).1,
    (getRaceStatus_past_hint (JSVal.date 100) (JSVal.date 200) 0 rfl rfl).2⟩

/-- C4: when the window is undefined (falsy start or end date), both
`RaceCard` classify variants return upcoming with the "to be announced"
label for both values of the external past hint — a true hint is
silently discarded. -/
theorem getRaceStatus_undefined_window (startDate endDate : JSVal)
    (isPast : Bool) (now : Int)
    (h : truthy startDate = false ∨ truthy endDate = false) :
    getRaceStatus startDate endDate isPast now =
      { status := RaceStatus.upcoming, label := "Bude oznámeno" } ∧
    card2GetRaceStatus startDate endDate isPast now =
      { status := RaceStatus.upcoming, label := "Bude oznámeno" } := by
  rcases h with h | h <;> simp [getRaceStatus, card2GetRaceStatus, h]

/-- Witness for C4: a null window with a true past hint at now = 0. -/
theorem getRaceStatus_undefined_window_witness :
    (truthy JSVal.jsNull = false ∨ truthy JSVal.jsNull = false) ∧
    getRaceStatus JSVal.jsNull JSVal.jsNull true 0 =
      { status := RaceStatus.upcoming, label := "Bude oznámeno" } ∧
    card2GetRaceStatus JSVal.jsNull JSVal.jsNull true 0 =
      { status := RaceStatus.upcoming, label := "Bude oznámeno" } :=
  ⟨Or.inl rfl,
    (getRaceStatus_undefined_window JSVal.jsNull JSVal.jsNull true 0 (Or.inl rfl)).1,
    (getRaceStatus_undefined_window JSVal.jsNull JSVal.jsNull true 0 (Or.inl rfl)).2⟩

/-- C9: the classification is deterministic — two invocations of
`getRaceStatus` (and of the hint-free `RaceDetails` variant) on equal
windows, equal hints and equal instants return equal results: the
functions are pure, with no hidden state or caching. -/
theorem getRaceStatus_deterministic (s1 e1 : JSVal) (p1 : Bool) (n1 : Int)
    (s2 e2 : JSVal) (p2 : Bool) (n2 : Int)
    (hs : s1 = s2) (he : e1 = e2) (hp : p1 = p2) (hn : n1 = n2) :
    getRaceStatus s1 e1 p1 n1 = getRaceStatus s2 e2 p2 n2 ∧
    detailsGetRaceStatus s1 e1 n1 = detailsGetRaceStatus s2 e2 n2 := by
  subst hs
  subst he
  subst hp
  subst hn
  exact ⟨rfl, rfl⟩

/-- Witness for C9 at a concrete repeated invocation. -/
theorem getRaceStatus_deterministic_witness :
    JSVal.date 3 = JSVal.date 3 ∧ JSVal.date 7 = JSVal.date 7 ∧
    (false = false) ∧ ((5:Int) = 5) ∧
    (getRaceStatus (JSVal.date 3) (JSVal.date 7) false 5 =
      getRaceStatus (JSVal.date 3) (JSVal.date 7) false 5 ∧
    detailsGetRaceStatus (JSVal.date 3) (JSVal.date 7) 5 =
      detailsGetRaceStatus (JSVal.date 3) (JSVal.date 7) 5) :=
  ⟨rfl, rfl, rfl, rfl,
    getRaceStatus_deterministic (JSVal.date 3) (JSVal.date 7) false 5
      (JSVal.date 3) (JSVal.date 7) false 5 rfl rfl rfl rfl⟩

/-- C5 (amended): in the `RaceCard`/`RaceDetails` variant,
`getEventDateRange` computes the window from exactly the validly parsed
instants — every session whose date/time fails to parse is excluded from
the min/max reduction — and the function is total, so malformed input
never raises to the caller. (The `Index` page's copy does not have this
property; see the counterexample below.) -/
theorem getEventDateRange_excludes_invalid (r : Race) :
    getEventDateRange r =
      if validInstants r = [] then
        { startDate := JSVal.jsNull, endDate := JSVal.jsNull }
      else
        { startDate := JSVal.date (reduceMinInt (validInstants r))
        , endDate := JSVal.date (reduceMaxInt (validInstants r)) } := by
  rcases hvals : validInstants r with _ | ⟨v, vs⟩
  · rw [if_pos rfl]
    simp only [getEventDateRange, validInstants_map, hvals]
    simp
  · rw [if_neg (by simp)]
    rw [getEventDateRange_eq r v vs hvals]
    simp [reduceMinInt, reduceMaxInt]

/-- A race whose first-practice date string is malformed while the main
race parses to instant 200. -/
def badFirstPracticeRace : Race :=
  { date := IsoStr.ok 200
  , time := none
  , FirstPractice := some { date := IsoStr.bad, time := some (IsoStr.ok 0) }
  , SecondPractice := none
  , ThirdPractice := none
  , Qualifying := none
  , SprintQualifying := none
  , Sprint := none }

/-- Counterexample to C5 as stated: the `Index` page's copy of
`getEventDateRange` (whose filter lacks the `isValid` check) does not
exclude the malformed first-practice entry from the reduction. The
Invalid Date seeds both reduces and never loses a comparison, so both
window fields come out invalid, although the validly parsed instants are
exactly `[200]` and their min/max window would be `(date 200, date 200)`. -/
theorem indexGetEventDateRange_invalid_propagates :
    indexGetEventDateRange badFirstPracticeRace =
      { startDate := JSVal.invalid, endDate := JSVal.invalid } ∧
    indexValidInstants badFirstPracticeRace = [200] ∧
    (indexGetEventDateRange badFirstPracticeRace).startDate ≠
      JSVal.date (reduceMinInt (indexValidInstants badFirstPracticeRace)) ∧
    (indexGetEventDateRange badFirstPracticeRace).endDate ≠
      JSVal.date (reduceMaxInt (indexValidInstants badFirstPracticeRace)) := by
  decide

/-- Counterexample to C6 as stated: at `target = now` the difference is
zero, the specification's `computeRemaining` returns `none` (render
nothing), but `calculateTimeLeft` stores the all-zero record, which the
countdown renders as 00:00:00:00. -/
theorem calculateTimeLeft_zero_not_none :
    calculateTimeLeft 5 5 =
      { days := 0, hours := 0, minutes := 0, seconds := 0 } ∧
    computeRemainingSpec 5 5 = none := by
  decide

/-- C6 (amended): when `target ≤ now`, `calculateTimeLeft` returns the
all-zero record — never a negative component — rather than `none`; when
`now < target` the components are nonnegative and bounded
(hours < 24, minutes < 60, seconds < 60), reconstruct the exact
whole-second difference via (((days·24+hours)·60+minutes)·60+seconds),
and agree with the specification's `computeRemaining`. -/
theorem calculateTimeLeft_decomposition (target now : Int) :
    (target ≤ now →
      calculateTimeLeft target now =
        { days := 0, hours := 0, minutes := 0, seconds := 0 }) ∧
    (0 ≤ (calculateTimeLeft target now).days ∧
      0 ≤ (calculateTimeLeft target now).hours ∧
      0 ≤ (calculateTimeLeft target now).minutes ∧
      0 ≤ (calculateTimeLeft target now).seconds) ∧
    (now < target →
      (((calculateTimeLeft target now).days * 24 +
          (calculateTimeLeft target now).hours) * 60 +
          (calculateTimeLeft target now).minutes) * 60 +
          (calculateTimeLeft target now).seconds = target - now ∧
      (calculateTimeLeft target now).hours < 24 ∧
      (calculateTimeLeft target now).minutes < 60 ∧
      (calculateTimeLeft target now).seconds < 60 ∧
      computeRemainingSpec target now = some (calculateTimeLeft target now)) := by
  refine ⟨?_, ?_, ?_⟩
  · intro hle
    simp only [calculateTimeLeft]
    rw [if_pos (by omega : target - now ≤ 0)]
  · simp only [calculateTimeLeft]
    by_cases h : target - now ≤ 0
    · rw [if_pos h]
      exact ⟨le_refl 0, le_refl 0, le_refl 0, le_refl 0⟩
    · rw [if_neg h]
      refine ⟨?_, ?_, ?_, ?_⟩ <;> dsimp only <;> omega
  · intro hlt
    simp only [calculateTimeLeft, computeRemainingSpec]
    rw [if_neg (by omega : ¬target - now ≤ 0), if_neg (by omega : ¬target ≤ now)]
    refine ⟨?_, ?_, ?_, ?_, rfl⟩ <;> dsimp only <;> omega

/-- C7: the session-level live check of `EventItem` returns true iff
`now` lies within the closed interval from the session start to two
hours (7200 s) after it, when the date and time are both present and the
combined string parses; with a missing date or missing time it returns
false. -/
theorem isCurrentEvent_iff (date time : IsoStr) (now start : Int)
    (hp : parseISO date time = JSVal.date start) :
    (isCurrentEvent (some date) (some time) now = true ↔
      start ≤ now ∧ now ≤ start + 7200) ∧
    isCurrentEvent none (some time) now = false ∧
    isCurrentEvent (some date) none now = false := by
  refine ⟨?_, rfl, rfl⟩
  simp only [isCurrentEvent, hp, isWithinInterval,
    min_eq_left (by omega : start ≤ start + 7200),
    max_eq_right (by omega : start ≤ start + 7200),
    Bool.and_eq_true, decide_eq_true_eq]

/-- Witness for C7: a session parsing to instant 100, checked at
now = 100 (the session start itself). -/
theorem isCurrentEvent_iff_witness :
    parseISO (IsoStr.ok 0) (IsoStr.ok 100) = JSVal.date 100 ∧
    ((isCurrentEvent (some (IsoStr.ok 0)) (some (IsoStr.ok 100)) 100 = true ↔
      (100:Int) ≤ 100 ∧ (100:Int) ≤ 100 + 7200) ∧
    isCurrentEvent none (some (IsoStr.ok 100)) 100 = false ∧
    isCurrentEvent (some (IsoStr.ok 0)) none 100 = false) :=
  ⟨rfl, isCurrentEvent_iff (IsoStr.ok 0) (IsoStr.ok 100) 100 100 rfl⟩

/-- C8: the results-fetch request of `RaceDetails` is issued exactly
when the dialog is open with a race whose window end is a valid date
strictly before the current instant; with an undefined window end, or
one not yet in the past, no request is made. -/
theorem shouldFetchResults_iff (race : Option Race) (isOpen : Bool)
    (now : Int) :
    shouldFetchResults race isOpen now = true ↔
      ∃ r e, race = some r ∧ isOpen = true ∧
        (getEventDateRange r).endDate = JSVal.date e ∧ e < now := by
  cases race with
  | none => simp [shouldFetchResults]
  | some r =>
    simp only [shouldFetchResults, Option.some.injEq]
    cases hed : (getEventDateRange r).endDate <;>
      simp [truthy, jsLt, hed]

/-! ### Lemmas about the Index page's reductions over possibly invalid
entries, used for the partition of the schedule -/

theorem jsLt_nondate (a h : JSVal) (hh : ∀ x : Int, h ≠ JSVal.date x) :
    jsLt a h = false := by
  cases a <;> cases h <;> first | rfl | exact absurd rfl (hh _)

theorem jsGt_nondate (a h : JSVal) (hh : ∀ x : Int, h ≠ JSVal.date x) :
    jsGt a h = false := by
  cases a <;> cases h <;> first | rfl | exact absurd rfl (hh _)

theorem foldl_jsmin_nondate (t : List JSVal) (h : JSVal)
    (hh : ∀ x : Int, h ≠ JSVal.date x) :
    t.foldl (fun m d => if jsLt d m then d else m) h = h := by
  induction t with
  | nil => rfl
  | cons a t ih =>
    simp only [List.foldl_cons, jsLt_nondate a h hh, if_false]
    exact ih

theorem foldl_jsmax_nondate (t : List JSVal) (h : JSVal)
    (hh : ∀ x : Int, h ≠ JSVal.date x) :
    t.foldl (fun m d => if jsGt d m then d else m) h = h := by
  induction t with
  | nil => rfl
  | cons a t ih =>
    simp only [List.foldl_cons, jsGt_nondate a h hh, if_false]
    exact ih

theorem foldl_jsmin_date_le (t : List JSVal) (x : Int) :
    ∃ m : Int, t.foldl (fun m d => if jsLt d m then d else m) (JSVal.date x)
        = JSVal.date m ∧ m ≤ x := by
  induction t generalizing x with
  | nil => exact ⟨x, rfl, le_refl x⟩
  | cons a t ih =>
    simp only [List.foldl_cons]
    cases a with
    | date y =>
      by_cases hyx : y < x
      · have hlt : jsLt (JSVal.date y) (JSVal.date x) = true := by
          simp [jsLt, hyx]
        rw [hlt, if_pos rfl]
        obtain ⟨m, hm, hmy⟩ := ih y
        exact ⟨m, hm, by omega⟩
      · have hlt : jsLt (JSVal.date y) (JSVal.date x) = false := by
          simp [jsLt]
          omega
        rw [hlt, if_neg (by simp)]
        exact ih x
    | jsNull =>
      rw [show jsLt JSVal.jsNull (JSVal.date x) = false from rfl,
        if_neg (by simp)]
      exact ih x
    | undef =>
      rw [show jsLt JSVal.undef (JSVal.date x) = false from rfl,
        if_neg (by simp)]
      exact ih x
    | invalid =>
      rw [show jsLt JSVal.invalid (JSVal.date x) = false from rfl,
        if_neg (by simp)]
      exact ih x

theorem foldl_jsmax_date_ge (t : List JSVal) (x : Int) :
    ∃ m : Int, t.foldl (fun m d => if jsGt d m then d else m) (JSVal.date x)
        = JSVal.date m ∧ x ≤ m := by
  induction t generalizing x with
  | nil => exact ⟨x, rfl, le_refl x⟩
  | cons a t ih =>
    simp only [List.foldl_cons]
    cases a with
    | date y =>
      by_cases hyx : x < y
      · have hgt : jsGt (JSVal.date y) (JSVal.date x) = true := by
          simp [jsGt, hyx]
        rw [hgt, if_pos rfl]
        obtain ⟨m, hm, hmy⟩ := ih y
        exact ⟨m, hm, by omega⟩
      · have hgt : jsGt (JSVal.date y) (JSVal.date x) = false := by
          simp [jsGt]
          omega
        rw [hgt, if_neg (by simp)]
        exact ih x
    | jsNull =>
      rw [show jsGt JSVal.jsNull (JSVal.date x) = false from rfl,
        if_neg (by simp)]
      exact ih x
    | undef =>
      rw [show jsGt JSVal.undef (JSVal.date x) = false from rfl,
        if_neg (by simp)]
      exact ih x
    | invalid =>
      rw [show jsGt JSVal.invalid (JSVal.date x) = false from rfl,
        if_neg (by simp)]
      exact ih x

/-- When the Index page's window has two valid dates, the start is at
most the end: both reductions run over the same list seeded with its
first element, which must itself be a valid date for either reduction to
produce one. -/
theorem indexRange_start_le_end (r : Race) (s e : Int)
    (hs : (indexGetEventDateRange r).startDate = JSVal.date s)
    (he : (indexGetEventDateRange r).endDate = JSVal.date e) : s ≤ e := by
  simp only [indexGetEventDateRange] at hs he
  by_cases hlen :
      ((indexRangeEntries r).filter (fun d => !(d == JSVal.jsNull))).length = 0
  · rw [if_pos hlen] at hs
    exact absurd hs (by simp)
  · rw [if_neg hlen] at hs he
    rcases hd : (indexRangeEntries r).filter (fun d => !(d == JSVal.jsNull))
      with _ | ⟨h, t⟩
    · rw [hd] at hlen
      exact absurd rfl hlen
    · rw [hd] at hs he
      simp only [jsReduceMin, jsReduceMax] at hs he
      cases h with
      | date x =>
        obtain ⟨m, hm, hmx⟩ := foldl_jsmin_date_le t x
        obtain ⟨M, hM, hxM⟩ := foldl_jsmax_date_ge t x
        rw [hm] at hs
        rw [hM] at he
        simp only [JSVal.date.injEq] at hs he
        omega
      | jsNull =>
        rw [foldl_jsmin_nondate t JSVal.jsNull
          (by intro x h; exact absurd h (by simp))] at hs
        exact absurd hs (by simp)
      | undef =>
        rw [foldl_jsmin_nondate t JSVal.undef
          (by intro x h; exact absurd h (by simp))] at hs
        exact absurd hs (by simp)
      | invalid =>
        rw [foldl_jsmin_nondate t JSVal.invalid
          (by intro x h; exact absurd h (by simp))] at hs
        exact absurd hs (by simp)

/-- A race is never both past and current in the Index page's filters:
`isRacePast` needs a valid window end strictly before `now`, while
`isRaceCurrent` needs `now` inside the closed window. -/
theorem not_past_and_current (r : Race) (now : Int) :
    ¬(isRacePast r now = true ∧ isRaceCurrent r now = true) := by
  rintro ⟨hp, hc⟩
  simp only [isRacePast] at hp
  simp only [isRaceCurrent] at hc
  cases hsd : (indexGetEventDateRange r).startDate <;>
    cases hed : (indexGetEventDateRange r).endDate <;>
      rw [hsd, hed] at hc <;> rw [hed] at hp <;>
      simp [truthy, jsLt, isWithinInterval] at hp hc
  rename_i s e
  have hse := indexRange_start_le_end r s e hsd hed
  omega

/-- C10: the three schedule filters of the Index page partition the
schedule — for every race of the schedule and every fixed current
instant, `isRacePast` and `isRaceCurrent` are never both true, so the
race appears in exactly one of `pastRaces`, `currentRaces` and
`upcomingRaces`. -/
theorem schedule_partition (schedule : List Race) (r : Race) (now : Int)
    (hr : r ∈ schedule) :
    (r ∈ pastRaces schedule now ∧ r ∉ currentRaces schedule now ∧
      r ∉ upcomingRaces schedule now) ∨
    (r ∉ pastRaces schedule now ∧ r ∈ currentRaces schedule now ∧
      r ∉ upcomingRaces schedule now) ∨
    (r ∉ pastRaces schedule now ∧ r ∉ currentRaces schedule now ∧
      r ∈ upcomingRaces schedule now) := by
  have hdis := not_past_and_current r now
  cases hp : isRacePast r now <;> cases hc : isRaceCurrent r now <;>
    simp_all [pastRaces, currentRaces, upcomingRaces, List.mem_filter]

/-- Witness for C10 at the one-race schedule `[wRace]` and now = 300. -/
theorem schedule_partition_witness :
    wRace ∈ [wRace] ∧
    ((wRace ∈ pastRaces [wRace] 300 ∧ wRace ∉ currentRaces [wRace] 300 ∧
      wRace ∉ upcomingRaces [wRace] 300) ∨
    (wRace ∉ pastRaces [wRace] 300 ∧ wRace ∈ currentRaces [wRace] 300 ∧
      wRace ∉ upcomingRaces [wRace] 300) ∨
    (wRace ∉ pastRaces [wRace] 300 ∧ wRace ∉ currentRaces [wRace] 300 ∧
      wRace ∈ upcomingRaces [wRace] 300)) :=
  ⟨List.mem_singleton.mpr rfl,
    schedule_partition [wRace] wRace 300 (List.mem_singleton.mpr rfl)⟩

/-- Witness for the countdown decomposition at the specification's own
example: 90,061 seconds ahead decomposes into 1 day, 1 hour, 1 minute
and 1 second. -/
theorem calculateTimeLeft_decomposition_witness :
    calculateTimeLeft 90061 0 =
      { days := 1, hours := 1, minutes := 1, seconds := 1 } ∧
    ((90061:Int) ≤ 0 →
      calculateTimeLeft 90061 0 =
        { days := 0, hours := 0, minutes := 0, seconds := 0 }) ∧
    (0 ≤ (calculateTimeLeft 90061 0).days ∧
      0 ≤ (calculateTimeLeft 90061 0).hours ∧
      0 ≤ (calculateTimeLeft 90061 0).minutes ∧
      0 ≤ (calculateTimeLeft 90061 0).seconds) ∧
    ((0:Int) < 90061 →
      (((calculateTimeLeft 90061 0).days * 24 +
          (calculateTimeLeft 90061 0).hours) * 60 +
          (calculateTimeLeft 90061 0).minutes) * 60 +
          (calculateTimeLeft 90061 0).seconds = 90061 - 0 ∧
      (calculateTimeLeft 90061 0).hours < 24 ∧
      (calculateTimeLeft 90061 0).minutes < 60 ∧
      (calculateTimeLeft 90061 0).seconds < 60 ∧
      computeRemainingSpec 90061 0 = some (calculateTimeLeft 90061 0)) :=
  ⟨by decide, calculateTimeLeft_decomposition 90061 0⟩
